import Mathlib

/-!
Verification development for the Toxcord real-time audio call engine.

Shallow embedding of:
- `src/apps/desktop/src-tauri/src/audio/mixer.rs` (`AudioSource`, `AudioMixer`)
- `src/apps/desktop/src-tauri/src/managers/av_manager.rs` (`CallState`, `AvManager`)
- `src/crates/toxcord-tox/src/av_types.rs` (`CallStateFlags`)
- the float-to-PCM conversion in `src/apps/desktop/src-tauri/src/audio/capture.rs`

Modelling conventions:
- Rust `i16`/`i32` sample values are embedded as unbounded `Int`; where the
  `i16` input range matters it appears as an explicit hypothesis (the Rust
  type system guarantees it at every call site).
- Rust `f32` loudness/level arithmetic is embedded as exact rational (`ℚ`)
  arithmetic with the same operation structure.
- Rust truncating integer division (`/` on `i32`) is `Int.tdiv`.
- `HashMap` registries are embedded as association lists with unique keys;
  the operations below mirror `entry/or_insert_with`, `get`, `get_mut`,
  `insert` and `remove` of the source.
- The wall-clock timestamp `chrono::Utc::now().to_rfc3339()` is embedded as
  an explicit `now : Nat` argument threaded into the transition.
-/

namespace Toxcord

/-- `TOXAV_SAMPLE_RATE` from `audio/mod.rs`. -/
def TOXAV_SAMPLE_RATE : Nat := 48000

/-- `TOXAV_FRAME_DURATION_MS` from `audio/mod.rs`. -/
def TOXAV_FRAME_DURATION_MS : Nat := 20

/-- `TOXAV_SAMPLES_PER_FRAME` from `audio/mod.rs`. -/
def TOXAV_SAMPLES_PER_FRAME : Nat := TOXAV_SAMPLE_RATE * TOXAV_FRAME_DURATION_MS / 1000

/-- `MAX_BUFFER_SAMPLES` from `audio/mixer.rs` (per-source jitter capacity). -/
def MAX_BUFFER_SAMPLES : Nat := TOXAV_SAMPLES_PER_FRAME * 10

/-- One peer's audio stream state: struct `AudioSource` in `audio/mixer.rs`.
`buffer` holds the ring of PCM samples, front of the queue at the head. -/
structure AudioSource where
  buffer : List Int
  level_accumulator : ℚ
  level_sample_count : Nat
deriving DecidableEq

namespace AudioSource

/-- `AudioSource::new` in `audio/mixer.rs`. -/
def new : AudioSource :=
  { buffer := [], level_accumulator := 0, level_sample_count := 0 }

/-- One iteration of the per-sample loop body of `AudioSource::push_samples`:
evict from the front when full, append, update the loudness accumulator. -/
def pushSample (src : AudioSource) (sample : Int) : AudioSource :=
  let buf := if MAX_BUFFER_SAMPLES ≤ src.buffer.length then src.buffer.tail else src.buffer
  { buffer := buf ++ [sample]
    level_accumulator := src.level_accumulator + (sample.natAbs : ℚ) / 32768
    level_sample_count := src.level_sample_count + 1 }

/-- `AudioSource::push_samples` in `audio/mixer.rs`. -/
def push_samples (src : AudioSource) (samples : List Int) : AudioSource :=
  samples.foldl pushSample src

/-- `AudioSource::get_samples` in `audio/mixer.rs`: pop the available
samples (at most `count`) from the front, pad the result with zeros up to
`count`. Returns the produced block and the updated source. -/
def get_samples (src : AudioSource) (count : Nat) : List Int × AudioSource :=
  let available := min src.buffer.length count
  let popped := src.buffer.take available
  (popped ++ List.replicate (count - available) 0,
   { src with buffer := src.buffer.drop available })

/-- `AudioSource::available_samples` in `audio/mixer.rs`. -/
def available_samples (src : AudioSource) : Nat := src.buffer.length

/-- `AudioSource::get_level` in `audio/mixer.rs`: average loudness since the
last read, scaled by 3 and capped at 1; reading resets the accumulator. -/
def get_level (src : AudioSource) : ℚ × AudioSource :=
  if src.level_sample_count = 0 then (0, src)
  else
    let level := src.level_accumulator / (src.level_sample_count : ℚ)
    (min (level * 3) 1, { src with level_accumulator := 0, level_sample_count := 0 })

end AudioSource

/-- Clamp to the `i16` range: `.clamp(-32768, 32767)` on an `i32` value. -/
def i16Clamp (x : Int) : Int := max (-32768) (min x 32767)

/-- Struct `AudioMixer` in `audio/mixer.rs`. `sources` is the `HashMap`
keyed by `friend_number`, embedded as an association list. -/
structure AudioMixer where
  sources : List (Nat × AudioSource)
  sample_rate : Nat
  muted : Bool
deriving DecidableEq

namespace AudioMixer

/-- `AudioMixer::new` in `audio/mixer.rs`. -/
def new (sample_rate : Nat) : AudioMixer :=
  { sources := [], sample_rate := sample_rate, muted := false }

/-- `self.sources.entry(fn).or_insert_with(AudioSource::new)` followed by
`push_samples`, on the association-list embedding of the `HashMap`. -/
def pushIntoSources : List (Nat × AudioSource) → Nat → List Int → List (Nat × AudioSource)
  | [], fn, pcm => [(fn, AudioSource.push_samples AudioSource.new pcm)]
  | (k, s) :: rest, fn, pcm =>
    if k = fn then (k, AudioSource.push_samples s pcm) :: rest
    else (k, s) :: pushIntoSources rest fn pcm

/-- `AudioMixer::push_frame` in `audio/mixer.rs`. -/
def push_frame (m : AudioMixer) (fn : Nat) (pcm : List Int) : AudioMixer :=
  { m with sources := pushIntoSources m.sources fn pcm }

/-- The inner accumulation loop of `AudioMixer::get_mixed_output`:
`for (i, &sample) in source_samples.iter().enumerate() { mixed[i] += sample }`.
Adds `samples` pointwise into `mixed`, keeping `mixed`'s length. -/
def addInto : List Int → List Int → List Int
  | mixed, [] => mixed
  | [], _ => []
  | a :: mixed, b :: samples => (a + b) :: addInto mixed samples

/-- `AudioMixer::get_mixed_output` in `audio/mixer.rs`: early-out on mute or
no sources; otherwise drain every source, sum pointwise into 32-bit
accumulators, divide by the source count and clamp to `i16`. Returns the
output block and the updated mixer. -/
def get_mixed_output (m : AudioMixer) (sample_count : Nat) : List Int × AudioMixer :=
  if m.muted then (List.replicate sample_count 0, m)
  else if m.sources.isEmpty then (List.replicate sample_count 0, m)
  else
    let source_count := m.sources.length
    let drained := m.sources.map fun p => (p.1, AudioSource.get_samples p.2 sample_count)
    let all_samples := drained.map fun p => p.2.1
    let mixed := all_samples.foldl addInto (List.replicate sample_count 0)
    let divisor : Int := (max source_count 1 : Nat)
    (mixed.map fun s => i16Clamp (Int.tdiv s divisor),
     { m with sources := drained.map fun p => (p.1, p.2.2) })

/-- `AudioMixer::remove_source` in `audio/mixer.rs`. -/
def remove_source (m : AudioMixer) (fn : Nat) : AudioMixer :=
  { m with sources := m.sources.filter fun p => p.1 != fn }

/-- `self.sources.get_mut(&fn).map(|s| s.get_level()).unwrap_or(0.0)`:
the in-place level read on the association-list embedding. -/
def getLevelIn : List (Nat × AudioSource) → Nat → ℚ × List (Nat × AudioSource)
  | [], _ => (0, [])
  | (k, s) :: rest, fn =>
    if k = fn then ((AudioSource.get_level s).1, (k, (AudioSource.get_level s).2) :: rest)
    else
      let r := getLevelIn rest fn
      (r.1, (k, s) :: r.2)

/-- `AudioMixer::get_level` in `audio/mixer.rs`. -/
def get_level (m : AudioMixer) (fn : Nat) : ℚ × AudioMixer :=
  ((getLevelIn m.sources fn).1, { m with sources := (getLevelIn m.sources fn).2 })

/-- `AudioMixer::source_count` in `audio/mixer.rs`. -/
def source_count (m : AudioMixer) : Nat := m.sources.length

end AudioMixer

/-- Enum `CallStatus` in `managers/av_manager.rs`. -/
inductive CallStatus
  | RingingOutgoing
  | RingingIncoming
  | InProgress
  | Ended
  | CallError
deriving DecidableEq

/-- Struct `CallStateFlags` in `toxcord-tox/src/av_types.rs`. -/
structure CallStateFlags where
  error : Bool
  finished : Bool
  sending_audio : Bool
  sending_video : Bool
  accepting_audio : Bool
  accepting_video : Bool
deriving DecidableEq

namespace CallStateFlags

/-- `CallStateFlags::is_active` in `av_types.rs`. -/
def is_active (f : CallStateFlags) : Bool := !f.finished && !f.error

/-- `CallStateFlags::has_audio` in `av_types.rs`. -/
def has_audio (f : CallStateFlags) : Bool := f.sending_audio || f.accepting_audio

/-- `CallStateFlags::has_video` in `av_types.rs`. -/
def has_video (f : CallStateFlags) : Bool := f.sending_video || f.accepting_video

end CallStateFlags

/-- Struct `CallState` in `managers/av_manager.rs` (one call record).
`started_at` holds the abstract timestamp (`None` until stamped). -/
structure CallState where
  friend_number : Nat
  state : CallStatus
  has_audio : Bool
  has_video : Bool
  is_audio_muted : Bool
  is_video_muted : Bool
  started_at : Option Nat
deriving DecidableEq

/-- Struct `AvManager` in `managers/av_manager.rs`; `calls` is the
`HashMap<u32, CallState>` registry as an association list. -/
structure AvManager where
  calls : List (Nat × CallState)
  is_muted : Bool
  is_deafened : Bool
deriving DecidableEq

namespace AvManager

/-- `AvManager::new` in `managers/av_manager.rs`. -/
def new : AvManager := { calls := [], is_muted := false, is_deafened := false }

/-- `HashMap::insert` on the association-list registry embedding. -/
def insertCall : List (Nat × CallState) → Nat → CallState → List (Nat × CallState)
  | [], fn, c => [(fn, c)]
  | (k, v) :: rest, fn, c =>
    if k = fn then (k, c) :: rest else (k, v) :: insertCall rest fn c

/-- `AvManager::start_call` in `managers/av_manager.rs`. -/
def start_call (m : AvManager) (fn : Nat) (with_video : Bool) : AvManager :=
  let call : CallState :=
    { friend_number := fn
      state := CallStatus.RingingOutgoing
      has_audio := true
      has_video := with_video
      is_audio_muted := false
      is_video_muted := !with_video
      started_at := none }
  { m with calls := insertCall m.calls fn call }

/-- `AvManager::handle_incoming_call` in `managers/av_manager.rs`. -/
def handle_incoming_call (m : AvManager) (fn : Nat) (audio_enabled video_enabled : Bool) :
    AvManager :=
  let call : CallState :=
    { friend_number := fn
      state := CallStatus.RingingIncoming
      has_audio := audio_enabled
      has_video := video_enabled
      is_audio_muted := false
      is_video_muted := !video_enabled
      started_at := none }
  { m with calls := insertCall m.calls fn call }

/-- The body of `AvManager::update_call_state` applied to the one record
found by `get_mut`: the coarse state transition followed by the
unconditional capability-flag refresh. `now` is the clock value read by
`chrono::Utc::now()` at the stamping point. -/
def updateCall (c : CallState) (state : CallStateFlags) (now : Nat) : CallState :=
  let c1 :=
    if state.error || state.finished then
      { c with state := if state.error then CallStatus.CallError else CallStatus.Ended }
    else if state.is_active then
      if c.state ≠ CallStatus.InProgress then
        { c with state := CallStatus.InProgress, started_at := some now }
      else c
    else c
  { c1 with has_audio := state.has_audio, has_video := state.has_video }

/-- `self.calls.get_mut(&fn)` update: rewrite the matching entry in place,
leave the registry untouched (warn only) when no record exists. -/
def updateIn : List (Nat × CallState) → Nat → CallStateFlags → Nat → List (Nat × CallState)
  | [], _, _, _ => []
  | (k, c) :: rest, fn, f, now =>
    if k = fn then (k, updateCall c f now) :: rest
    else (k, c) :: updateIn rest fn f now

/-- `AvManager::update_call_state` in `managers/av_manager.rs`. -/
def update_call_state (m : AvManager) (fn : Nat) (f : CallStateFlags) (now : Nat) :
    AvManager :=
  { m with calls := updateIn m.calls fn f now }

/-- `AvManager::end_call` in `managers/av_manager.rs`: mark the record
`Ended` (if present) and then remove it from the registry. -/
def end_call (m : AvManager) (fn : Nat) : AvManager :=
  let marked := m.calls.map fun p =>
    if p.1 = fn then (p.1, { p.2 with state := CallStatus.Ended }) else p
  { m with calls := marked.filter fun p => p.1 != fn }

/-- `AvManager::get_call` in `managers/av_manager.rs`. -/
def get_call (m : AvManager) (fn : Nat) : Option CallState := List.lookup fn m.calls

/-- `AvManager::get_all_calls` in `managers/av_manager.rs`. -/
def get_all_calls (m : AvManager) : List CallState := m.calls.map fun p => p.2

/-- `AvManager::has_call` in `managers/av_manager.rs`. -/
def has_call (m : AvManager) (fn : Nat) : Bool := (List.lookup fn m.calls).isSome

end AvManager

/-- Rust `f32::clamp(lo, hi)` (for `lo ≤ hi`), on the rational embedding. -/
def ratClamp (x lo hi : ℚ) : ℚ := max lo (min x hi)

/-- The float-to-int truncation toward zero performed by Rust `as i16` on an
in-range float: embedded on `ℚ` as truncating division of the numerator. -/
def ratTruncToZero (q : ℚ) : Int := Int.tdiv q.num (q.den : Int)

/-- The per-sample conversion in `AudioCapture::build_stream`
(`audio/capture.rs`): `(s * 32767.0).clamp(-32768.0, 32767.0) as i16`. -/
def convert_sample (s : ℚ) : Int := ratTruncToZero (ratClamp (s * 32767) (-32768) 32767)

/-! ### Helper lemmas: lists and pointwise mixing -/

lemma getD_replicate_self {α : Type _} (n j : Nat) (a : α) :
    (List.replicate n a).getD j a = a := by
  induction n generalizing j with
  | zero => simp [List.getD]
  | succ n ih =>
    cases j with
    | zero => simp [List.replicate]
    | succ j => simp [List.replicate, ih j]

lemma addInto_length (mixed s : List Int) (h : s.length = mixed.length) :
    (AudioMixer.addInto mixed s).length = mixed.length := by
  induction mixed generalizing s with
  | nil =>
    cases s with
    | nil => rfl
    | cons b bs => simp at h
  | cons a ms ih =>
    cases s with
    | nil => rfl
    | cons b bs =>
      simp only [AudioMixer.addInto, List.length_cons]
      simp only [List.length_cons] at h
      rw [ih bs (by omega)]

lemma addInto_getD (mixed s : List Int) (h : s.length = mixed.length) (j : Nat) :
    (AudioMixer.addInto mixed s).getD j 0 = mixed.getD j 0 + s.getD j 0 := by
  induction mixed generalizing s j with
  | nil =>
    cases s with
    | nil => simp [AudioMixer.addInto, List.getD]
    | cons b bs => simp at h
  | cons a ms ih =>
    cases s with
    | nil => simp at h
    | cons b bs =>
      cases j with
      | zero => simp [AudioMixer.addInto]
      | succ j =>
        simp only [AudioMixer.addInto, List.getD_cons_succ]
        exact ih bs (by simpa using h) j

lemma foldl_addInto_length (L : List (List Int)) (z : List Int)
    (h : ∀ s ∈ L, s.length = z.length) :
    (L.foldl AudioMixer.addInto z).length = z.length := by
  induction L generalizing z with
  | nil => rfl
  | cons s L ih =>
    simp only [List.foldl_cons]
    have hz : s.length = z.length := h s (by simp)
    have hlen := addInto_length z s hz
    rw [ih (AudioMixer.addInto z s) (by intro t ht; rw [hlen]; exact h t (by simp [ht]))]
    exact hlen

lemma foldl_addInto_getD (L : List (List Int)) (z : List Int)
    (h : ∀ s ∈ L, s.length = z.length) (j : Nat) :
    (L.foldl AudioMixer.addInto z).getD j 0
      = z.getD j 0 + (L.map fun s => s.getD j 0).sum := by
  induction L generalizing z with
  | nil => simp
  | cons s L ih =>
    simp only [List.foldl_cons, List.map_cons, List.sum_cons]
    have hz : s.length = z.length := h s (by simp)
    have hlen := addInto_length z s hz
    rw [ih (AudioMixer.addInto z s) (by intro t ht; rw [hlen]; exact h t (by simp [ht])),
        addInto_getD z s hz j]
    ring

/-! ### Helper lemmas: `AudioSource.get_samples` -/

lemma get_samples_fst_length (src : AudioSource) (c : Nat) :
    ((AudioSource.get_samples src c).1).length = c := by
  simp only [AudioSource.get_samples, List.length_append, List.length_take,
    List.length_replicate]
  omega

lemma get_samples_fst_getD (src : AudioSource) (c j : Nat) (hj : j < c) :
    ((AudioSource.get_samples src c).1).getD j 0 = src.buffer.getD j 0 := by
  simp only [AudioSource.get_samples]
  by_cases hjb : j < min src.buffer.length c
  · rw [List.getD_append _ _ _ _ (by simpa using hjb)]
    rw [List.getD_eq_getElem _ _ (by simpa using hjb),
        List.getD_eq_getElem _ _ (by omega), List.getElem_take]
  · have hlen : (src.buffer.take (min src.buffer.length c)).length = min src.buffer.length c := by
      simp
    rw [List.getD_append_right _ _ _ _ (by omega)]
    have hbuf : src.buffer.length ≤ j := by omega
    rw [getD_replicate_self, List.getD_eq_getElem?_getD, List.getElem?_eq_none (by omega)]
    rfl

lemma get_samples_snd_buffer (src : AudioSource) (c : Nat) :
    ((AudioSource.get_samples src c).2).buffer = src.buffer.drop (min src.buffer.length c) :=
  rfl

/-! ### Helper lemmas: truncating division (`Int.tdiv`) -/

lemma ediv_le_of_le_mul {a hi : Int} {N : Nat} (hN : 0 < N) (h : a ≤ hi * N) :
    a / (N : Int) ≤ hi := by
  by_contra hlt
  push_neg at hlt
  have h1 : hi + 1 ≤ a / (N : Int) := by omega
  have h2 : (hi + 1) * (N : Int) ≤ a :=
    (Int.le_ediv_iff_mul_le (by exact_mod_cast hN)).mp h1
  have h3 : hi * (N : Int) < (hi + 1) * (N : Int) := by
    have : (0 : Int) < (N : Int) := by exact_mod_cast hN
    nlinarith
  omega

lemma tdiv_bounds {a lo hi : Int} {N : Nat} (hN : 0 < N) (hlo : lo ≤ 0) (hhi : 0 ≤ hi)
    (h1 : lo * N ≤ a) (h2 : a ≤ hi * N) :
    lo ≤ Int.tdiv a N ∧ Int.tdiv a N ≤ hi := by
  rcases le_or_lt 0 a with ha | ha
  · rw [Int.tdiv_eq_ediv ha (by positivity)]
    constructor
    · have : (0 : Int) ≤ a / (N : Int) := Int.ediv_nonneg ha (by positivity)
      omega
    · exact ediv_le_of_le_mul hN h2
  · have hrw : Int.tdiv a N = -Int.tdiv (-a) N := by
      rw [← Int.neg_tdiv, neg_neg]
    rw [hrw, Int.tdiv_eq_ediv (by omega) (by positivity)]
    have hb1 : (-a) ≤ (-lo) * N := by nlinarith
    have hb2 : (0 : Int) ≤ (-a) / (N : Int) := Int.ediv_nonneg (by omega) (by positivity)
    have hb3 : (-a) / (N : Int) ≤ -lo := ediv_le_of_le_mul hN hb1
    omega

lemma tdiv_const_mul (S : Int) (N : Nat) (hN : 0 < N) :
    Int.tdiv ((N : Int) * S) (N : Int) = S :=
  Int.mul_tdiv_cancel_left S (by positivity)

lemma i16Clamp_eq_self {x : Int} (h1 : -32768 ≤ x) (h2 : x ≤ 32767) : i16Clamp x = x := by
  simp only [i16Clamp]
  omega

lemma sum_map_bounds {α : Type _} (l : List α) (f : α → Int) (lo hi : Int)
    (h : ∀ x ∈ l, lo ≤ f x ∧ f x ≤ hi) :
    lo * l.length ≤ (l.map f).sum ∧ (l.map f).sum ≤ hi * l.length := by
  induction l with
  | nil => simp
  | cons a l ih =>
    have ha := h a (by simp)
    have ihl := ih (fun x hx => h x (by simp [hx]))
    simp only [List.map_cons, List.sum_cons, List.length_cons]
    have hc : ((l.length + 1 : Nat) : Int) = (l.length : Int) + 1 := by push_cast; ring
    rw [hc]
    constructor
    · nlinarith [ihl.1, ha.1]
    · nlinarith [ihl.2, ha.2]

/-! ### The mixing formula of `get_mixed_output` -/

lemma map_clamp_getD (mixed : List Int) (N : Int) (j : Nat) (hj : j < mixed.length) :
    ((mixed.map fun s => i16Clamp (Int.tdiv s N)).getD j 0)
      = i16Clamp (Int.tdiv (mixed.getD j 0) N) := by
  rw [List.getD_eq_getElem _ _ (by simpa using hj), List.getElem_map,
    List.getD_eq_getElem _ _ hj]

lemma mixedOutput_spec (m : AudioMixer) (sc : Nat)
    (hm : m.muted = false) (hne : m.sources ≠ []) :
    ((m.get_mixed_output sc).1).length = sc
    ∧ (∀ j, j < sc →
        ((m.get_mixed_output sc).1).getD j 0
          = i16Clamp (Int.tdiv ((m.sources.map fun p => p.2.buffer.getD j 0).sum)
              (m.sources.length : Int))) := by
  have hie : m.sources.isEmpty = false := List.isEmpty_eq_false.mpr hne
  have hlen1 : 1 ≤ m.sources.length := by
    cases hs : m.sources with
    | nil => exact absurd hs hne
    | cons a l => simp [hs]
  have hmax : max m.sources.length 1 = m.sources.length := Nat.max_eq_left hlen1
  simp only [AudioMixer.get_mixed_output, hm, hie, Bool.false_eq_true, if_false,
    List.map_map, Function.comp_def, hmax]
  have hLlen : ∀ s ∈ m.sources.map fun p => (AudioSource.get_samples p.2 sc).1,
      s.length = (List.replicate sc (0 : Int)).length := by
    intro s hs
    rcases List.mem_map.mp hs with ⟨p, _, hp⟩
    rw [← hp, get_samples_fst_length, List.length_replicate]
  have hmixlen :
      ((m.sources.map fun p => (AudioSource.get_samples p.2 sc).1).foldl
        AudioMixer.addInto (List.replicate sc 0)).length = sc := by
    rw [foldl_addInto_length _ _ hLlen, List.length_replicate]
  constructor
  · simp only [List.length_map]
    exact hmixlen
  · intro j hj
    rw [map_clamp_getD _ _ j (by rw [hmixlen]; exact hj),
      foldl_addInto_getD _ _ hLlen j, getD_replicate_self, List.map_map, Function.comp_def]
    have hcol :
        (m.sources.map fun p => ((AudioSource.get_samples p.2 sc).1).getD j 0)
          = m.sources.map fun p => p.2.buffer.getD j 0 :=
      List.map_congr_left fun p _ => get_samples_fst_getD p.2 sc j hj
    rw [hcol, zero_add]

/-! ### Helper lemmas: the jitter ring buffer -/

lemma pushSample_buffer_full (src : AudioSource) (s : Int)
    (h : MAX_BUFFER_SAMPLES ≤ src.buffer.length) :
    (AudioSource.pushSample src s).buffer = src.buffer.tail ++ [s] := by
  simp [AudioSource.pushSample, h]

lemma pushSample_buffer_spare (src : AudioSource) (s : Int)
    (h : src.buffer.length < MAX_BUFFER_SAMPLES) :
    (AudioSource.pushSample src s).buffer = src.buffer ++ [s] := by
  simp [AudioSource.pushSample, Nat.not_le.mpr h]

lemma max_buffer_samples_eq : MAX_BUFFER_SAMPLES = 9600 := by
  decide

set_option maxRecDepth 4000 in
lemma push_samples_buffer_window (P : List Int) (src : AudioSource)
    (h : src.buffer.length ≤ MAX_BUFFER_SAMPLES) :
    (AudioSource.push_samples src P).buffer
      = (src.buffer ++ P).drop (src.buffer.length + P.length - MAX_BUFFER_SAMPLES) := by
  induction P generalizing src with
  | nil =>
    simp only [AudioSource.push_samples, List.foldl_nil, List.append_nil, List.length_nil]
    rw [show src.buffer.length + 0 - MAX_BUFFER_SAMPLES = 0 from by omega, List.drop_zero]
  | cons s P ih =>
    have hstep : AudioSource.push_samples src (s :: P)
        = AudioSource.push_samples (AudioSource.pushSample src s) P := rfl
    rcases Nat.lt_or_ge src.buffer.length MAX_BUFFER_SAMPLES with hsp | hfull
    · have hb : (AudioSource.pushSample src s).buffer = src.buffer ++ [s] :=
        pushSample_buffer_spare src s hsp
      have hlen : (AudioSource.pushSample src s).buffer.length ≤ MAX_BUFFER_SAMPLES := by
        rw [hb]; simp; omega
      rw [hstep, ih _ hlen, hb]
      simp only [List.append_assoc, List.singleton_append, List.length_append,
        List.length_cons, List.length_nil]
      exact congrArg (fun k => (src.buffer ++ s :: P).drop k) (by omega)
    · have heq : src.buffer.length = MAX_BUFFER_SAMPLES := le_antisymm h hfull
      have hne : src.buffer ≠ [] := by
        intro hnil
        rw [hnil] at heq
        simp [max_buffer_samples_eq] at heq
      have hb : (AudioSource.pushSample src s).buffer = src.buffer.tail ++ [s] :=
        pushSample_buffer_full src s hfull
      have htl : src.buffer.tail.length = MAX_BUFFER_SAMPLES - 1 := by
        rw [List.length_tail, heq]
      have hlen : (AudioSource.pushSample src s).buffer.length ≤ MAX_BUFFER_SAMPLES := by
        rw [hb]
        simp only [List.length_append, List.length_cons, List.length_nil, htl]
        have : 1 ≤ MAX_BUFFER_SAMPLES := by rw [max_buffer_samples_eq]; omega
        omega
      rcases List.exists_cons_of_ne_nil hne with ⟨b, bs, hbs⟩
      have hbl : bs.length + 1 = MAX_BUFFER_SAMPLES := by
        have hq := heq
        rw [hbs] at hq
        simpa using hq
      rw [hstep, ih _ hlen, hb, hbs]
      simp only [List.tail_cons]
      have hls : ((bs ++ [s]) ++ P) = bs ++ s :: P := by simp
      have hl1 : (bs ++ [s]).length + P.length - MAX_BUFFER_SAMPLES = P.length := by
        simp only [List.length_append, List.length_cons, List.length_nil]
        omega
      have hr1 : (b :: bs).length + (s :: P).length - MAX_BUFFER_SAMPLES = P.length + 1 := by
        simp only [List.length_cons]
        omega
      rw [hls, hl1, hr1, List.cons_append, List.drop_succ_cons]

lemma push_samples_count (P : List Int) (src : AudioSource) :
    (AudioSource.push_samples src P).level_sample_count
      = src.level_sample_count + P.length := by
  induction P generalizing src with
  | nil => simp [AudioSource.push_samples]
  | cons s P ih =>
    have hstep : AudioSource.push_samples src (s :: P)
        = AudioSource.push_samples (AudioSource.pushSample src s) P := rfl
    rw [hstep, ih]
    simp [AudioSource.pushSample]
    omega

lemma push_samples_acc (P : List Int) (src : AudioSource) :
    (AudioSource.push_samples src P).level_accumulator
      = src.level_accumulator + (P.map fun s => (s.natAbs : ℚ) / 32768).sum := by
  induction P generalizing src with
  | nil => simp [AudioSource.push_samples]
  | cons s P ih =>
    have hstep : AudioSource.push_samples src (s :: P)
        = AudioSource.push_samples (AudioSource.pushSample src s) P := rfl
    rw [hstep, ih]
    simp [AudioSource.pushSample]
    ring

/-! ### Helper lemmas: truncation toward zero on `ℚ` -/

lemma ratTruncToZero_of_nonneg (q : ℚ) (h : 0 ≤ q) : ratTruncToZero q = ⌊q⌋ := by
  rw [ratTruncToZero, Int.tdiv_eq_ediv (Rat.num_nonneg.mpr h) (by positivity), Rat.floor_def]

lemma ratTruncToZero_of_neg (q : ℚ) (h : q < 0) : ratTruncToZero q = -⌊-q⌋ := by
  have hnum : q.num = -((-q).num) := by rw [Rat.neg_num, neg_neg]
  have hden : ((q.den : Int)) = ((-q).den : Int) := by rw [Rat.neg_den]
  rw [ratTruncToZero, hnum, hden, Int.neg_tdiv,
    Int.tdiv_eq_ediv (Rat.num_nonneg.mpr (by linarith)) (by positivity), Rat.floor_def]

lemma ratTruncToZero_bounds (q : ℚ) (lo hi : Int) (hlo : lo ≤ 0) (hhi : 0 ≤ hi)
    (h1 : (lo : ℚ) ≤ q) (h2 : q ≤ (hi : ℚ)) :
    lo ≤ ratTruncToZero q ∧ ratTruncToZero q ≤ hi := by
  rcases le_or_lt 0 q with hq | hq
  · rw [ratTruncToZero_of_nonneg q hq]
    constructor
    · have : (0 : Int) ≤ ⌊q⌋ := Int.floor_nonneg.mpr hq
      omega
    · have := Int.floor_le_floor h2
      rwa [Int.floor_intCast] at this
  · rw [ratTruncToZero_of_neg q hq]
    constructor
    · have h3 : -q ≤ ((-lo : Int) : ℚ) := by push_cast; linarith
      have := Int.floor_le_floor h3
      rw [Int.floor_intCast] at this
      omega
    · have : (0 : Int) ≤ ⌊-q⌋ := Int.floor_nonneg.mpr (by linarith)
      omega

/-! ### Helper lemmas: association-list registries -/

lemma lookup_filter_ne {β : Type _} (l : List (Nat × β)) (fn : Nat) :
    List.lookup fn (l.filter fun p => p.1 != fn) = none := by
  induction l with
  | nil => rfl
  | cons p rest ih =>
    by_cases hk : p.1 = fn
    · simp [List.filter, hk, ih]
    · rcases p with ⟨k, v⟩
      have hne : (k != fn) = true := by simpa using hk
      have hfk : (fn == k) = false := by simpa using Ne.symm hk
      simp [List.filter, hne, List.lookup, hfk, ih]

lemma lookup_pushIntoSources_self (l : List (Nat × AudioSource)) (fn : Nat) (pcm : List Int)
    (h : List.lookup fn l = none) :
    List.lookup fn (AudioMixer.pushIntoSources l fn pcm)
      = some (AudioSource.push_samples AudioSource.new pcm) := by
  induction l with
  | nil => simp [AudioMixer.pushIntoSources, List.lookup]
  | cons p rest ih =>
    rcases p with ⟨k, v⟩
    by_cases hk : k = fn
    · rw [hk] at h
      simp [List.lookup] at h
    · have hne : (fn == k) = false := by simp [Ne.symm hk]
      simp only [AudioMixer.pushIntoSources, if_neg hk, List.lookup, hne]
      apply ih
      simpa [List.lookup, hne] using h

lemma pushIntoSources_length_new (l : List (Nat × AudioSource)) (fn : Nat) (pcm : List Int)
    (h : List.lookup fn l = none) :
    (AudioMixer.pushIntoSources l fn pcm).length = l.length + 1 := by
  induction l with
  | nil => rfl
  | cons p rest ih =>
    rcases p with ⟨k, v⟩
    by_cases hk : k = fn
    · rw [hk] at h
      simp [List.lookup] at h
    · have hne : (fn == k) = false := by simp [Ne.symm hk]
      simp only [AudioMixer.pushIntoSources, if_neg hk, List.length_cons]
      rw [ih (by simpa [List.lookup, hne] using h)]

lemma getLevelIn_none (l : List (Nat × AudioSource)) (fn : Nat)
    (h : List.lookup fn l = none) :
    (AudioMixer.getLevelIn l fn).1 = 0 := by
  induction l with
  | nil => rfl
  | cons p rest ih =>
    rcases p with ⟨k, v⟩
    by_cases hk : k = fn
    · rw [hk] at h
      simp [List.lookup] at h
    · have hne : (fn == k) = false := by simp [Ne.symm hk]
      simp only [AudioMixer.getLevelIn, if_neg hk]
      exact ih (by simpa [List.lookup, hne] using h)

lemma updateIn_none (l : List (Nat × CallState)) (fn : Nat) (f : CallStateFlags) (now : Nat)
    (h : List.lookup fn l = none) :
    AvManager.updateIn l fn f now = l := by
  induction l with
  | nil => rfl
  | cons p rest ih =>
    rcases p with ⟨k, v⟩
    by_cases hk : k = fn
    · rw [hk] at h
      simp [List.lookup] at h
    · have hne : (fn == k) = false := by simp [Ne.symm hk]
      simp only [AvManager.updateIn, if_neg hk]
      rw [ih (by simpa [List.lookup, hne] using h)]

lemma updateIn_some (l : List (Nat × CallState)) (fn : Nat) (f : CallStateFlags) (now : Nat)
    (c : CallState) (h : List.lookup fn l = some c) :
    List.lookup fn (AvManager.updateIn l fn f now) = some (AvManager.updateCall c f now) := by
  induction l with
  | nil => simp [List.lookup] at h
  | cons p rest ih =>
    rcases p with ⟨k, v⟩
    by_cases hk : k = fn
    · subst hk
      have hv : v = c := by simpa [List.lookup] using h
      subst hv
      simp [AvManager.updateIn, List.lookup]
    · have hne : (fn == k) = false := by simp [Ne.symm hk]
      simp only [AvManager.updateIn, if_neg hk, List.lookup, hne]
      exact ih (by simpa [List.lookup, hne] using h)

/-! ### Helper lemma: a sequence of pushes is one push of the concatenation -/

lemma foldl_push_samples_flatten (pushes : List (List Int)) (src : AudioSource) :
    pushes.foldl AudioSource.push_samples src
      = AudioSource.push_samples src pushes.flatten := by
  induction pushes generalizing src with
  | nil => rfl
  | cons L ls ih =>
    simp only [List.foldl_cons, List.flatten_cons]
    rw [ih]
    simp only [AudioSource.push_samples, List.foldl_append]

/-! ### Claim theorems -/

/-- C3: for every sequence of push calls on one peer's jitter buffer, the
buffer length never exceeds the fixed capacity `MAX_BUFFER_SAMPLES = 9600`
(10 frames of 960 samples); the length is exactly `min total capacity`, so
once the total pushed exceeds capacity the length equals capacity exactly,
and the retained samples are precisely the most recently pushed ones in
order (the oldest sample is dropped from the front for every appended one). -/
theorem c3_jitter_buffer_ring_capacity (pushes : List (List Int)) :
    (pushes.foldl AudioSource.push_samples AudioSource.new).buffer.length
        = min pushes.flatten.length MAX_BUFFER_SAMPLES
    ∧ (pushes.foldl AudioSource.push_samples AudioSource.new).buffer.length
        ≤ MAX_BUFFER_SAMPLES
    ∧ (pushes.foldl AudioSource.push_samples AudioSource.new).buffer
        = pushes.flatten.drop (pushes.flatten.length - MAX_BUFFER_SAMPLES)
    ∧ MAX_BUFFER_SAMPLES = 9600 := by
  have hwin := push_samples_buffer_window pushes.flatten AudioSource.new
    (by simp [AudioSource.new])
  have hb : (AudioSource.push_samples AudioSource.new pushes.flatten).buffer
      = pushes.flatten.drop (pushes.flatten.length - MAX_BUFFER_SAMPLES) := by
    simpa [AudioSource.new] using hwin
  rw [foldl_push_samples_flatten]
  refine ⟨?_, ?_, hb, max_buffer_samples_eq⟩
  · rw [hb, List.length_drop]
    omega
  · rw [hb, List.length_drop]
    omega

/-- C5: pulling from a muted mixer, or from a mixer with zero registered
peers, returns exactly `sample_count` samples all equal to 0 and leaves the
entire mixer state — hence every peer's jitter buffer, loudness accumulator
and sample count — unchanged. -/
theorem c5_muted_or_empty_pull_silence (m : AudioMixer) (sample_count : Nat)
    (h : m.muted = true ∨ m.sources = []) :
    m.get_mixed_output sample_count = (List.replicate sample_count 0, m) := by
  rcases h with h | h
  · simp [AudioMixer.get_mixed_output, h]
  · cases hmut : m.muted with
    | true => simp [AudioMixer.get_mixed_output, hmut]
    | false => simp [AudioMixer.get_mixed_output, hmut, h]

theorem c5_muted_or_empty_pull_silence_witness :
    AudioMixer.get_mixed_output ⟨[], 48000, true⟩ 3
      = (List.replicate 3 0, ⟨[], 48000, true⟩) :=
  c5_muted_or_empty_pull_silence ⟨[], 48000, true⟩ 3 (Or.inl rfl)

/-- C6: `level(peerId)` returns 0 for a peer with no jitter buffer; a second
consecutive read with no intervening push returns 0 (reading resets the
accumulator and count to zero); the accumulator is the running sum of
`|sample| / 32768` over pushed samples and the count is the number of pushed
samples; a read with a nonzero count returns
`min ((accumulator / sampleCount) * 3) 1`; and whenever the accumulator is
nonnegative (as it always is, being a sum of absolute values) the returned
level lies in `[0, 1]`. -/
theorem c6_level_semantics (m : AudioMixer) (fn : Nat) (P : List Int)
    (hml : List.lookup fn m.sources = none) :
    (m.get_level fn).1 = 0
    ∧ (∀ src : AudioSource, (AudioSource.get_level (AudioSource.get_level src).2).1 = 0)
    ∧ (AudioSource.push_samples AudioSource.new P).level_accumulator
        = (P.map fun s => (s.natAbs : ℚ) / 32768).sum
    ∧ (AudioSource.push_samples AudioSource.new P).level_sample_count = P.length
    ∧ (∀ src : AudioSource, src.level_sample_count ≠ 0 →
        (src.get_level).1
          = min (src.level_accumulator / (src.level_sample_count : ℚ) * 3) 1)
    ∧ (∀ src : AudioSource, 0 ≤ src.level_accumulator →
        0 ≤ (src.get_level).1 ∧ (src.get_level).1 ≤ 1) := by
  refine ⟨?_, ?_, ?_, ?_, ?_, ?_⟩
  · exact getLevelIn_none m.sources fn hml
  · intro src
    by_cases h : src.level_sample_count = 0
    · simp [AudioSource.get_level, h]
    · simp [AudioSource.get_level, h]
  · simpa [AudioSource.new] using push_samples_acc P AudioSource.new
  · simpa [AudioSource.new] using push_samples_count P AudioSource.new
  · intro src h
    simp [AudioSource.get_level, h]
  · intro src hacc
    by_cases h : src.level_sample_count = 0
    · simp [AudioSource.get_level, h]
    · have hcnt : (0 : ℚ) < (src.level_sample_count : ℚ) := by
        have : 0 < src.level_sample_count := Nat.pos_of_ne_zero h
        exact_mod_cast this
      simp only [AudioSource.get_level, h, if_false]
      constructor
      · apply le_min
        · have hdiv : 0 ≤ src.level_accumulator / (src.level_sample_count : ℚ) :=
            div_nonneg hacc (le_of_lt hcnt)
          linarith
        · norm_num
      · exact min_le_right _ _

theorem c6_level_semantics_witness :
    (AudioMixer.get_level ⟨[], 48000, false⟩ 7).1 = 0 :=
  (c6_level_semantics ⟨[], 48000, false⟩ 7 [] rfl).1

/-- C10: `updateFromTransport` for a peer with no call record leaves the
entire registry unchanged: no record is created and no other peer's record
is modified. -/
theorem c10_update_unknown_peer_noop (m : AvManager) (fn : Nat) (f : CallStateFlags)
    (now : Nat) (h : List.lookup fn m.calls = none) :
    m.update_call_state fn f now = m := by
  have hu := updateIn_none m.calls fn f now h
  simp [AvManager.update_call_state, hu]

theorem c10_update_unknown_peer_noop_witness :
    AvManager.update_call_state AvManager.new 3
        ⟨false, false, false, false, false, false⟩ 0 = AvManager.new :=
  c10_update_unknown_peer_noop AvManager.new 3
    ⟨false, false, false, false, false, false⟩ 0 rfl

/-- C2 counterexample: the claim that a record reaching `Ended` is removed
from the registry immediately is false on the code. Starting a call with
peer 0 and then applying `updateFromTransport` with `finished = true`
leaves a record in the registry: `get_call` still returns it, in state
`Ended`, and `get_all_calls` still lists one record. -/
theorem c2_terminal_record_not_removed_counterexample :
    AvManager.get_call
        ((AvManager.new.start_call 0 false).update_call_state 0
          ⟨false, true, false, false, false, false⟩ 5) 0
      ≠ none
    ∧ (AvManager.get_call
        ((AvManager.new.start_call 0 false).update_call_state 0
          ⟨false, true, false, false, false, false⟩ 5) 0).map CallState.state
      = some CallStatus.Ended
    ∧ ((AvManager.new.start_call 0 false).update_call_state 0
        ⟨false, true, false, false, false, false⟩ 5).get_all_calls.length = 1 := by
  decide

/-- C2 (amended): after `updateFromTransport` sets a record's state to
`Ended` (`finished`) or `Error` (`error`), the record PERSISTS in the
registry with that terminal state — a subsequent `get_call` still returns
it. It is removed from the registry only by an explicit `end_call`
(hangup). -/
theorem c2_terminal_record_persists_until_end_call (m : AvManager) (fn : Nat)
    (c : CallState) (f : CallStateFlags) (now : Nat)
    (hc : List.lookup fn m.calls = some c)
    (hterm : f.error = true ∨ f.finished = true) :
    AvManager.get_call (m.update_call_state fn f now) fn
        = some (AvManager.updateCall c f now)
    ∧ (AvManager.updateCall c f now).state
        = (if f.error = true then CallStatus.CallError else CallStatus.Ended)
    ∧ AvManager.get_call (AvManager.end_call (m.update_call_state fn f now) fn) fn
        = none := by
  refine ⟨?_, ?_, ?_⟩
  · simpa [AvManager.get_call, AvManager.update_call_state]
      using updateIn_some m.calls fn f now c hc
  · cases herr : f.error with
    | true => simp [AvManager.updateCall, herr]
    | false =>
      have hfin : f.finished = true := by
        rcases hterm with h | h
        · rw [herr] at h
          exact absurd h (by simp)
        · exact h
      simp [AvManager.updateCall, herr, hfin]
  · simp [AvManager.get_call, AvManager.end_call, lookup_filter_ne]

theorem c2_terminal_record_persists_until_end_call_witness :
    AvManager.get_call
        ((AvManager.new.start_call 1 false).update_call_state 1
          ⟨false, true, false, false, false, false⟩ 7) 1
      = some (AvManager.updateCall
          ⟨1, CallStatus.RingingOutgoing, true, false, false, true, none⟩
          ⟨false, true, false, false, false, false⟩ 7) :=
  (c2_terminal_record_persists_until_end_call (AvManager.new.start_call 1 false) 1
    ⟨1, CallStatus.RingingOutgoing, true, false, false, true, none⟩
    ⟨false, true, false, false, false, false⟩ 7 (by decide) (Or.inr rfl)).1

/-- C4 counterexample: the claim's parenthetical "set from None to a
non-null value" fails on the code. A record persisting in `Ended` state
with an already-stamped start timestamp (`some 3`) re-enters the stamping
branch on an active flags update: the transition to `InProgress` fires and
overwrites the timestamp even though it was not `None` beforehand. -/
theorem c4_stamp_from_none_counterexample :
    CallStateFlags.is_active ⟨false, false, true, false, true, false⟩ = true
    ∧ (⟨0, CallStatus.Ended, false, false, false, false, some 3⟩ : CallState).state
        ≠ CallStatus.InProgress
    ∧ (AvManager.updateCall ⟨0, CallStatus.Ended, false, false, false, false, some 3⟩
        ⟨false, false, true, false, true, false⟩ 9).state = CallStatus.InProgress
    ∧ (AvManager.updateCall ⟨0, CallStatus.Ended, false, false, false, false, some 3⟩
        ⟨false, false, true, false, true, false⟩ 9).started_at = some 9
    ∧ (⟨0, CallStatus.Ended, false, false, false, false, some 3⟩ : CallState).started_at
        ≠ none := by
  decide

/-- C4 (amended): for every existing call record and flags value,
`updateFromTransport` behaves as follows. If `error` is set the state
becomes `Error`; else if `finished` is set the state becomes `Ended` (in
both cases the timestamp is untouched); else if the current state is not
already `InProgress` the state becomes `InProgress` and the start
timestamp is stamped to a non-null value — overwriting any previously
stamped value — and it changes only on that transition; and on every call,
regardless of whether the coarse state changed, `hasAudio` is refreshed to
`sendingAudio || acceptingAudio` and `hasVideo` to
`sendingVideo || acceptingVideo`. -/
theorem c4_update_from_transport_transitions (m : AvManager) (fn : Nat)
    (c : CallState) (f : CallStateFlags) (now : Nat)
    (hc : List.lookup fn m.calls = some c) :
    AvManager.get_call (m.update_call_state fn f now) fn
        = some (AvManager.updateCall c f now)
    ∧ (f.error = true → (AvManager.updateCall c f now).state = CallStatus.CallError)
    ∧ (f.error = false → f.finished = true →
        (AvManager.updateCall c f now).state = CallStatus.Ended)
    ∧ (f.error = false → f.finished = false → c.state ≠ CallStatus.InProgress →
        (AvManager.updateCall c f now).state = CallStatus.InProgress
        ∧ (AvManager.updateCall c f now).started_at = some now)
    ∧ (f.error = false → f.finished = false → c.state = CallStatus.InProgress →
        (AvManager.updateCall c f now).state = c.state
        ∧ (AvManager.updateCall c f now).started_at = c.started_at)
    ∧ (f.error = true ∨ f.finished = true →
        (AvManager.updateCall c f now).started_at = c.started_at)
    ∧ (AvManager.updateCall c f now).has_audio = (f.sending_audio || f.accepting_audio)
    ∧ (AvManager.updateCall c f now).has_video = (f.sending_video || f.accepting_video) := by
  refine ⟨?_, ?_, ?_, ?_, ?_, ?_, ?_, ?_⟩
  · simpa [AvManager.get_call, AvManager.update_call_state]
      using updateIn_some m.calls fn f now c hc
  · intro herr
    simp [AvManager.updateCall, herr]
  · intro herr hfin
    simp [AvManager.updateCall, herr, hfin]
  · intro herr hfin hst
    simp [AvManager.updateCall, CallStateFlags.is_active, herr, hfin, hst]
  · intro herr hfin hst
    simp [AvManager.updateCall, CallStateFlags.is_active, herr, hfin, hst]
  · intro hterm
    rcases hterm with herr | hfin
    · simp [AvManager.updateCall, herr]
    · cases herr : f.error with
      | true => simp [AvManager.updateCall, herr]
      | false => simp [AvManager.updateCall, herr, hfin]
  · cases herr : f.error with
    | true => simp [AvManager.updateCall, CallStateFlags.has_audio, herr]
    | false =>
      cases hfin : f.finished with
      | true => simp [AvManager.updateCall, CallStateFlags.has_audio, herr, hfin]
      | false =>
        by_cases hst : c.state = CallStatus.InProgress
        · simp [AvManager.updateCall, CallStateFlags.is_active,
            CallStateFlags.has_audio, herr, hfin, hst]
        · simp [AvManager.updateCall, CallStateFlags.is_active,
            CallStateFlags.has_audio, herr, hfin, hst]
  · cases herr : f.error with
    | true => simp [AvManager.updateCall, CallStateFlags.has_video, herr]
    | false =>
      cases hfin : f.finished with
      | true => simp [AvManager.updateCall, CallStateFlags.has_video, herr, hfin]
      | false =>
        by_cases hst : c.state = CallStatus.InProgress
        · simp [AvManager.updateCall, CallStateFlags.is_active,
            CallStateFlags.has_video, herr, hfin, hst]
        · simp [AvManager.updateCall, CallStateFlags.is_active,
            CallStateFlags.has_video, herr, hfin, hst]

theorem c4_update_from_transport_transitions_witness :
    (AvManager.updateCall ⟨2, CallStatus.RingingIncoming, true, false, false, true, none⟩
        ⟨false, false, false, false, false, false⟩ 11).state = CallStatus.InProgress
    ∧ (AvManager.updateCall ⟨2, CallStatus.RingingIncoming, true, false, false, true, none⟩
        ⟨false, false, false, false, false, false⟩ 11).started_at = some 11 :=
  (c4_update_from_transport_transitions (AvManager.new.handle_incoming_call 2 true false) 2
    ⟨2, CallStatus.RingingIncoming, true, false, false, true, none⟩
    ⟨false, false, false, false, false, false⟩ 11 (by decide)).2.2.2.1
    rfl rfl (by decide)

/-- C8: the capture pipeline emits, for each float sample `s`, the 16-bit
PCM value obtained by multiplying by 32767, clamping to `[-32768, 32767]`
and truncating toward zero (the float-to-int cast): the result always lies
in the `i16` range, `s = 1/2` maps to 16383 (truncation, not rounding to
16384), `s = -1/2` maps to -16383 (toward zero, not floor -16384), and
out-of-range inputs are clamped to the endpoints. -/
theorem c8_capture_float_to_pcm :
    (∀ s : ℚ, convert_sample s = ratTruncToZero (ratClamp (s * 32767) (-32768) 32767))
    ∧ (∀ s : ℚ, -32768 ≤ convert_sample s ∧ convert_sample s ≤ 32767)
    ∧ convert_sample (1 / 2) = 16383
    ∧ convert_sample (-(1 / 2)) = -16383
    ∧ convert_sample 1 = 32767
    ∧ convert_sample 2 = 32767
    ∧ convert_sample (-2) = -32768
    ∧ convert_sample 0 = 0 := by
  have hclamp : ∀ x : ℚ, -32768 ≤ x → x ≤ 32767 → ratClamp x (-32768) 32767 = x := by
    intro x h1 h2
    rw [ratClamp, min_eq_left h2, max_eq_right h1]
  refine ⟨fun s => rfl, fun s => ?_, ?_, ?_, ?_, ?_, ?_, ?_⟩
  · have h1 : ((-32768 : Int) : ℚ) ≤ ratClamp (s * 32767) (-32768) 32767 := by
      unfold ratClamp
      push_cast
      exact le_max_left _ _
    have h2 : ratClamp (s * 32767) (-32768) 32767 ≤ ((32767 : Int) : ℚ) := by
      unfold ratClamp
      push_cast
      exact max_le (by norm_num) (min_le_right _ _)
    exact ratTruncToZero_bounds _ (-32768) 32767 (by norm_num) (by norm_num) h1 h2
  · rw [convert_sample, show ((1 : ℚ)/2) * 32767 = 32767/2 from by norm_num,
      hclamp _ (by norm_num) (by norm_num),
      ratTruncToZero_of_nonneg _ (by norm_num)]
    norm_num
  · rw [convert_sample, show (-((1 : ℚ)/2)) * 32767 = -(32767/2) from by norm_num,
      hclamp _ (by norm_num) (by norm_num),
      ratTruncToZero_of_neg _ (by norm_num)]
    norm_num
  · rw [convert_sample, show ((1 : ℚ)) * 32767 = 32767 from by norm_num,
      hclamp _ (by norm_num) (by norm_num),
      ratTruncToZero_of_nonneg _ (by norm_num)]
    norm_num
  · rw [convert_sample, show ((2 : ℚ)) * 32767 = 65534 from by norm_num,
      show ratClamp (65534 : ℚ) (-32768) 32767 = 32767 from by
        rw [ratClamp, min_eq_right (by norm_num), max_eq_right (by norm_num)],
      ratTruncToZero_of_nonneg _ (by norm_num)]
    norm_num
  · rw [convert_sample, show ((-2 : ℚ)) * 32767 = -65534 from by norm_num,
      show ratClamp (-65534 : ℚ) (-32768) 32767 = -32768 from by
        rw [ratClamp, min_eq_left (by norm_num), max_eq_left (by norm_num)],
      ratTruncToZero_of_neg _ (by norm_num)]
    norm_num
  · rw [convert_sample, show ((0 : ℚ)) * 32767 = 0 from by norm_num,
      hclamp _ (by norm_num) (by norm_num),
      ratTruncToZero_of_nonneg _ (by norm_num)]
    norm_num

lemma replicate_getD_lt (n j : Nat) (v : Int) (hj : j < n) :
    (List.replicate n v).getD j 0 = v := by
  rw [List.getD_eq_getElem _ _ (by simpa using hj), List.getElem_replicate]

lemma push_replicate_buffer (n : Nat) (v : Int) (hn : n ≤ MAX_BUFFER_SAMPLES) :
    (AudioSource.push_samples AudioSource.new (List.replicate n v)).buffer
      = List.replicate n v := by
  rw [push_samples_buffer_window _ _ (by simp [AudioSource.new])]
  simp only [AudioSource.new, List.nil_append, List.length_replicate, List.length_nil,
    Nat.zero_add]
  rw [show n - MAX_BUFFER_SAMPLES = 0 from by omega, List.drop_zero]

lemma two_source_replicate_pull (n : Nat) (hn : n ≤ MAX_BUFFER_SAMPLES) :
    ((((AudioMixer.new 48000).push_frame 1 (List.replicate n 1000)).push_frame 2
        (List.replicate n 3000)).get_mixed_output n).1 = List.replicate n 2000 := by
  have hsrcs : (((AudioMixer.new 48000).push_frame 1 (List.replicate n 1000)).push_frame 2
      (List.replicate n 3000)).sources
      = [(1, AudioSource.push_samples AudioSource.new (List.replicate n 1000)),
         (2, AudioSource.push_samples AudioSource.new (List.replicate n 3000))] := rfl
  have hne : (((AudioMixer.new 48000).push_frame 1 (List.replicate n 1000)).push_frame 2
      (List.replicate n 3000)).sources ≠ [] := by
    rw [hsrcs]
    exact List.cons_ne_nil _ _
  obtain ⟨hOutLen, hForm⟩ := mixedOutput_spec _ n rfl hne
  apply List.ext_getElem
  · rw [hOutLen, List.length_replicate]
  · intro i h1 h2
    have hi : i < n := by rw [hOutLen] at h1; exact h1
    rw [← List.getD_eq_getElem _ 0 h1, hForm i hi, List.getElem_replicate, hsrcs]
    simp only [List.map_cons, List.map_nil, List.sum_cons, List.sum_nil,
      List.length_cons, List.length_nil]
    rw [push_replicate_buffer n 1000 hn, push_replicate_buffer n 3000 hn,
      replicate_getD_lt _ _ _ hi, replicate_getD_lt _ _ _ hi]
    decide

/-- C1: with N registered peers that each buffered at least `sc` samples of
`i16` data, an unmuted `pull(sc)` returns exactly `sc` samples; the j-th
output is the truncated (toward zero) integer average of the peers' j-th
samples, clamped to the 16-bit range (the clamp never engages for `i16`
inputs); when every peer holds the same constant `S` the output is exactly
`S`; the output magnitude never exceeds the maximum input magnitude; and
concretely, peer A pushing 960 samples of 1000 and peer B pushing 960
samples of 3000 yields `pull(960) = 960 × 2000`. -/
theorem c1_unmuted_pull_truncated_average (m : AudioMixer) (sc : Nat)
    (hm : m.muted = false) (hne : m.sources ≠ [])
    (hlen : ∀ p ∈ m.sources, sc ≤ p.2.buffer.length)
    (hrange : ∀ p ∈ m.sources, ∀ s ∈ p.2.buffer, -32768 ≤ s ∧ s ≤ 32767) :
    ((m.get_mixed_output sc).1).length = sc
    ∧ (∀ j, j < sc →
        ((m.get_mixed_output sc).1).getD j 0
          = Int.tdiv ((m.sources.map fun p => p.2.buffer.getD j 0).sum)
              (m.sources.length : Int)
        ∧ -32768 ≤ ((m.get_mixed_output sc).1).getD j 0
        ∧ ((m.get_mixed_output sc).1).getD j 0 ≤ 32767)
    ∧ (∀ S : Int, -32768 ≤ S → S ≤ 32767 →
        (∀ p ∈ m.sources, ∀ j, j < sc → p.2.buffer.getD j 0 = S) →
        ∀ j, j < sc → ((m.get_mixed_output sc).1).getD j 0 = S)
    ∧ (∀ M : Int, 0 ≤ M →
        (∀ p ∈ m.sources, ∀ j, j < sc →
          -M ≤ p.2.buffer.getD j 0 ∧ p.2.buffer.getD j 0 ≤ M) →
        ∀ j, j < sc →
          -M ≤ ((m.get_mixed_output sc).1).getD j 0
          ∧ ((m.get_mixed_output sc).1).getD j 0 ≤ M)
    ∧ ((((AudioMixer.new 48000).push_frame 1 (List.replicate 960 1000)).push_frame 2
          (List.replicate 960 3000)).get_mixed_output 960).1 = List.replicate 960 2000 := by
  obtain ⟨hOutLen, hForm⟩ := mixedOutput_spec m sc hm hne
  have hN : 0 < m.sources.length := List.length_pos.mpr hne
  have hmem : ∀ p ∈ m.sources, ∀ j, j < sc →
      -32768 ≤ p.2.buffer.getD j 0 ∧ p.2.buffer.getD j 0 ≤ 32767 := by
    intro p hp j hj
    have hjlen : j < p.2.buffer.length := lt_of_lt_of_le hj (hlen p hp)
    rw [List.getD_eq_getElem _ _ hjlen]
    exact hrange p hp _ (List.getElem_mem hjlen)
  have hout : ∀ j, j < sc →
      ((m.get_mixed_output sc).1).getD j 0
        = Int.tdiv ((m.sources.map fun p => p.2.buffer.getD j 0).sum)
            (m.sources.length : Int)
      ∧ -32768 ≤ ((m.get_mixed_output sc).1).getD j 0
      ∧ ((m.get_mixed_output sc).1).getD j 0 ≤ 32767 := by
    intro j hj
    have hsum := sum_map_bounds m.sources (fun p => p.2.buffer.getD j 0) (-32768) 32767
      (fun p hp => hmem p hp j hj)
    have hdiv := tdiv_bounds hN (by norm_num) (by norm_num) hsum.1 hsum.2
    have heq : ((m.get_mixed_output sc).1).getD j 0
        = Int.tdiv ((m.sources.map fun p => p.2.buffer.getD j 0).sum)
            (m.sources.length : Int) := by
      rw [hForm j hj, i16Clamp_eq_self hdiv.1 hdiv.2]
    exact ⟨heq, by rw [heq]; exact hdiv.1, by rw [heq]; exact hdiv.2⟩
  refine ⟨hOutLen, hout, ?_, ?_,
    two_source_replicate_pull 960 (by rw [max_buffer_samples_eq]; omega)⟩
  · intro S hS1 hS2 hall j hj
    have hmap : (m.sources.map fun p => p.2.buffer.getD j 0)
        = m.sources.map fun _ => S :=
      List.map_congr_left fun p hp => hall p hp j hj
    have hsum : (m.sources.map fun p => p.2.buffer.getD j 0).sum
        = (m.sources.length : Int) * S := by
      rw [hmap, List.map_const', List.sum_replicate, nsmul_eq_mul]
    rw [hForm j hj, hsum, tdiv_const_mul S m.sources.length hN,
      i16Clamp_eq_self hS1 hS2]
  · intro M hM hMb j hj
    have hsumM := sum_map_bounds m.sources (fun p => p.2.buffer.getD j 0) (-M) M
      (fun p hp => hMb p hp j hj)
    have hdivM := tdiv_bounds hN (by linarith) hM hsumM.1 hsumM.2
    rw [(hout j hj).1]
    exact hdivM

theorem c1_unmuted_pull_truncated_average_witness :
    ((AudioMixer.get_mixed_output ⟨[(1, ⟨[1000], 0, 0⟩), (2, ⟨[3000], 0, 0⟩)], 48000, false⟩
      1).1).length = 1 :=
  (c1_unmuted_pull_truncated_average
    ⟨[(1, ⟨[1000], 0, 0⟩), (2, ⟨[3000], 0, 0⟩)], 48000, false⟩ 1 rfl (by simp)
    (by decide) (by decide)).1

/-- C7: after `remove(peerId)` the peer has no jitter buffer, a subsequent
pull draws only on the remaining peers' buffers — with the divisor equal to
the remaining peer count, so the removed peer contributes nothing — and a
re-add of the same id by a later push creates a completely fresh buffer
(built from `AudioSource::new`, with empty ring and zeroed loudness state),
containing none of the samples pushed before the remove. -/
theorem c7_remove_source_fresh_readd (m : AudioMixer) (fn : Nat) (pcm : List Int)
    (sc : Nat) (hm : m.muted = false) (hne : (m.remove_source fn).sources ≠ []) :
    List.lookup fn (m.remove_source fn).sources = none
    ∧ (∀ j, j < sc →
        (((m.remove_source fn).get_mixed_output sc).1).getD j 0
          = i16Clamp (Int.tdiv (((m.sources.filter fun p => p.1 != fn).map
              fun p => p.2.buffer.getD j 0).sum)
              ((m.sources.filter fun p => p.1 != fn).length : Int)))
    ∧ List.lookup fn ((m.remove_source fn).push_frame fn pcm).sources
        = some (AudioSource.push_samples AudioSource.new pcm) := by
  have hnone : List.lookup fn (m.remove_source fn).sources = none :=
    lookup_filter_ne m.sources fn
  refine ⟨hnone, ?_, ?_⟩
  · exact (mixedOutput_spec (m.remove_source fn) sc hm hne).2
  · exact lookup_pushIntoSources_self _ fn pcm hnone

theorem c7_remove_source_fresh_readd_witness :
    List.lookup 2 ((AudioMixer.remove_source
        ⟨[(1, ⟨[5], 0, 0⟩), (2, ⟨[7], 0, 0⟩)], 48000, false⟩ 2).sources) = none :=
  (c7_remove_source_fresh_readd
    ⟨[(1, ⟨[5], 0, 0⟩), (2, ⟨[7], 0, 0⟩)], 48000, false⟩ 2 [9] 1 rfl (by decide)).1

/-- C9: the averaging divisor of `pull` is the number of registered peers,
not the number of peers with data: a push of zero samples for a fresh peer
still creates a (fresh, empty) registry entry and increases the divisor by
one, every unmuted pull divides the per-position sum of all registered
buffers (zero-padded where empty) by the registered-peer count, and
concretely one peer holding 1000 next to a registered-but-empty peer yields
`pull(1) = [500]`, not `[1000]`. -/
theorem c9_divisor_counts_registered_peers (m : AudioMixer) (fn : Nat) (sc : Nat)
    (hm : m.muted = false) (hfn : List.lookup fn m.sources = none) :
    (m.push_frame fn []).sources.length = m.sources.length + 1
    ∧ List.lookup fn (m.push_frame fn []).sources = some AudioSource.new
    ∧ (∀ j, j < sc →
        (((m.push_frame fn []).get_mixed_output sc).1).getD j 0
          = i16Clamp (Int.tdiv (((m.push_frame fn []).sources.map
              fun p => p.2.buffer.getD j 0).sum)
              ((m.sources.length + 1 : Nat) : Int)))
    ∧ ((((AudioMixer.new 48000).push_frame 1 [1000]).push_frame 2 []).get_mixed_output 1).1
        = [500] := by
  have hlen : (m.push_frame fn []).sources.length = m.sources.length + 1 :=
    pushIntoSources_length_new m.sources fn [] hfn
  refine ⟨hlen, ?_, ?_, by decide⟩
  · exact lookup_pushIntoSources_self m.sources fn [] hfn
  · intro j hj
    have hne : (m.push_frame fn []).sources ≠ [] := by
      intro hnil
      rw [hnil] at hlen
      simp at hlen
    have hform := (mixedOutput_spec (m.push_frame fn []) sc hm hne).2 j hj
    rwa [hlen] at hform

theorem c9_divisor_counts_registered_peers_witness :
    (AudioMixer.push_frame ⟨[(1, ⟨[6], 0, 0⟩)], 48000, false⟩ 3 []).sources.length = 2 :=
  (c9_divisor_counts_registered_peers ⟨[(1, ⟨[6], 0, 0⟩)], 48000, false⟩ 3 1 rfl
    (by decide)).1

end Toxcord
